import Mathlib

/-!
Shallow embedding of the dispersy core covered by the specification:
`bootstrap.py` (seed-address resolver), `crypto.py` (ECDSA signature codec
and the `NoCrypto` stub), the seed-file parser, and the candidate
deduplication / introduction-selection behavior exercised by
`tests/test_candidates.py`.

Byte strings are `List Nat` with every element < 256 where it matters;
Python `int` is `Int`, Python `str`/`unicode` is `String`.  The M2Crypto
elliptic-curve backend (`EC.sign_dsa` / `EC.verify_dsa`) is external to the
repository, so a key is modelled as its observable interface: the curve bit
size `len(ec)` plus abstract `sign`/`verify` functions over OpenSSL MPI
encodings.
-/

set_option autoImplicit false

/-! ## Byte-level helpers for the signature codec (crypto.py) -/

/-- Big-endian minimal byte encoding of a natural number (the magnitude part
of an OpenSSL bignum).  `natBytesGo` is fuel-based so that the kernel can
evaluate it; `natBytes n` supplies fuel `n`, which always suffices since the
argument shrinks by a factor of 256 each step. -/
def natBytesGo : Nat → Nat → List Nat
  | _, 0 => []
  | 0, _ + 1 => []
  | f + 1, n + 1 => natBytesGo f ((n + 1) / 256) ++ [(n + 1) % 256]

def natBytes (n : Nat) : List Nat := natBytesGo n n

/-- The 4-byte big-endian header produced by `_STRUCT_L.pack` (struct ">L"). -/
def u32be (n : Nat) : List Nat :=
  [n / 16777216 % 256, n / 65536 % 256, n / 256 % 256, n % 256]

/-- `_STRUCT_L.unpack_from`: read the first four bytes as a big-endian u32.
`sign_dsa` always returns an MPI carrying its 4-byte header, so the
short-list fallback (struct.error in Python) is never reached in use. -/
def u32beDecode (l : List Nat) : Nat :=
  match l with
  | a :: b :: c :: d :: _ => ((a * 256 + b) * 256 + c) * 256 + d
  | _ => 0

/-- The payload of the OpenSSL MPI encoding of a nonnegative bignum:
minimal big-endian magnitude, prefixed with a zero byte when the most
significant bit of the leading byte is set. -/
def mpiPayload (n : Nat) : List Nat :=
  match natBytes n with
  | [] => []
  | b :: t => if 128 ≤ b then 0 :: b :: t else b :: t

/-- Full OpenSSL MPI encoding: 4-byte big-endian length header followed by
the payload.  This is the format `EC.sign_dsa` returns and `EC.verify_dsa`
consumes. -/
def mpiEnc (n : Nat) : List Nat := u32be (mpiPayload n).length ++ mpiPayload n

/-- The `while r and r[0] == "\x00": r = r[1:]` loop of
`is_valid_signature`. -/
def stripZeros : List Nat → List Nat
  | [] => []
  | b :: t => if b = 0 then stripZeros t else b :: t

/-- Python negative-index slice `l[-k:]` (note `l[-0:]` is the whole
string). -/
def pyTail (l : List Nat) (k : Nat) : List Nat :=
  if k = 0 then l else l.drop (l.length - k)

/-- `"\x00" * (length - len(l)) + l`: left pad with zero bytes. -/
def padTo (len : Nat) (l : List Nat) : List Nat :=
  List.replicate (len - l.length) 0 ++ l

/-- Observable interface of an M2Crypto EC key: `bits` is `len(ec)` (the
bit size of the curve), `sign digest` models `ec.sign_dsa(digest)` returning
the two MPI-encoded scalars, and `verify digest mpi_r mpi_s` models
`ec.verify_dsa(digest, mpi_r, mpi_s)`. -/
structure ECKey where
  bits : Nat
  sign : List Nat → List Nat × List Nat
  verify : List Nat → List Nat → List Nat → Bool

/-- The four predefined security levels of `_CURVES` and the bit size
`len(ec)` of the curve each maps to (sect163k1, sect233k1, sect409k1,
sect571r1). -/
def curveBits (level : String) : Option Nat :=
  if level = "very-low" then some 163
  else if level = "low" then some 233
  else if level = "medium" then some 409
  else if level = "high" then some 571
  else none

namespace ECCrypto

/-- `int(ceil(len(ec) / 8.0)) * 2`.  The float division is exact for all
curve sizes, so the `Nat` ceiling is faithful. -/
def get_signature_length (ec : ECKey) : Nat := ((ec.bits + 7) / 8) * 2

/-- `ECCrypto.create_signature`: take the two MPI scalars from `sign_dsa`,
keep the trailing `min(length, length_r)` bytes of each, and left-pad both
components to `length = ceil(len(ec)/8)` bytes. -/
def create_signature (ec : ECKey) (digest : List Nat) : List Nat :=
  let length := (ec.bits + 7) / 8
  let mpis := ec.sign digest
  let length_r := u32beDecode mpis.1
  let r := pyTail mpis.1 (min length length_r)
  let length_s := u32beDecode mpis.2
  let s := pyTail mpis.2 (min length length_s)
  padTo length r ++ padTo length s

/-- The body of the `try:` block of `is_valid_signature` for one signature
half: strip leading zero bytes, fail (IndexError, caught by the bare
`except`) when nothing remains, re-prefix a zero byte when the top bit of
the leading byte is set, and rebuild the MPI with its 4-byte header. -/
def reconstructMpi (half : List Nat) : Option (List Nat) :=
  match stripZeros half with
  | [] => none
  | b :: t =>
    let w := if 128 ≤ b then 0 :: b :: t else b :: t
    some (u32be w.length ++ w)

/-- `ECCrypto.is_valid_signature`.  The `assert len(signature) ==
self.get_signature_length(ec)` precedes the `try:` block, so a
wrong-length signature raises `AssertionError` (modelled as `.error`)
instead of returning a boolean; inside the `try:` every failure is turned
into `False`. -/
def is_valid_signature (ec : ECKey) (digest signature : List Nat) :
    Except String Bool :=
  if signature.length = get_signature_length ec then
    let length := signature.length / 2
    match reconstructMpi (signature.take length),
          reconstructMpi (signature.drop length) with
    | some mpi_r, some mpi_s => Except.ok (ec.verify digest mpi_r mpi_s)
    | _, _ => Except.ok false
  else Except.error "AssertionError"

end ECCrypto

namespace NoCrypto

/-- `NoCrypto.create_signature`: `"0" * self.get_signature_length(ec)`
(the byte 48 is the character "0"). -/
def create_signature (ec : ECKey) (_digest : List Nat) : List Nat :=
  List.replicate (ECCrypto.get_signature_length ec) 48

/-- `NoCrypto.is_valid_signature`: unconditionally `True`. -/
def is_valid_signature (_ec : ECKey) (_digest _signature : List Nat) : Bool :=
  true

end NoCrypto

/-! ## Bootstrap resolver (bootstrap.py) -/

/-- A configured `(host, port)` pair (`unicode` host, `int` port). -/
abbrev Addr := String × Int

/-- `BootstrapCandidate((str(ip), port), False)`: the resolved sock address
plus the tunnel flag. -/
structure BootstrapCandidate where
  sock_addr : String × Int
  tunnel : Bool
deriving DecidableEq

/-- The `self._candidates` dictionary: configured address keys mapped to
`None` (unresolved) or a resolved `BootstrapCandidate`, in insertion
order. -/
abbrev BState := List (Addr × Option BootstrapCandidate)

namespace Bootstrap

/-- `Bootstrap.__init__`: `dict((address, None) for address in addresses)`. -/
def init (addresses : List Addr) : BState :=
  addresses.map (fun a => (a, none))

/-- The key set of `self._candidates` (configured addresses). -/
def keys (st : BState) : List Addr := st.map (fun p => p.1)

/-- `Bootstrap.are_resolved`: `all(self._candidates.itervalues())`
(`None` is falsy, candidate objects are truthy). -/
def are_resolved (st : BState) : Bool := st.all (fun p => p.2.isSome)

/-- `Bootstrap.candidates`: all resolved candidates. -/
def candidates (st : BState) : List BootstrapCandidate :=
  st.filterMap (fun p => p.2)

/-- `Bootstrap.progress`: `(resolved_count, total_count)`. -/
def progress (st : BState) : Nat × Nat :=
  ((candidates st).length, st.length)

/-- `Bootstrap.reset`: rebuild the dict with every value `None`, keeping
the keys. -/
def reset (st : BState) : BState :=
  st.map (fun p => (p.1, (none : Option BootstrapCandidate)))

/-- `self._candidates[(host, port)] = candidate`: assignment under an
existing key. -/
def updateAt (st : BState) (a : Addr) (c : BootstrapCandidate) : BState :=
  st.map (fun p => if p.1 = a then (p.1, some c) else p)

/-- `[address for address, candidate in self._candidates.iteritems() if not
candidate]`. -/
def unresolvedAddresses (st : BState) : List Addr :=
  (st.filter (fun p => p.2.isNone)).map (fun p => p.1)

/-- `gatherResults([...])` without `consumeErrors`: succeeds with the list
of results only when every deferred succeeds; any single DNS failure fails
the whole gather (and hence propagates out of `resolve`). -/
def gatherResults : List (Option String) → Option (List String)
  | [] => some []
  | none :: _ => none
  | some x :: rest => (gatherResults rest).map (fun xs => x :: xs)

/-- The `for (host, port), ip in zip(addresses, ips):` loop of `resolve`:
install a `BootstrapCandidate` and latch `success = True` for every truthy
`ip`. -/
def installAll : List (Addr × String) → BState → Bool → Bool × BState
  | [], st, success => (success, st)
  | (a, ip) :: rest, st, success =>
    if ip = "" then installAll rest st success
    else installAll rest (updateAt st a ⟨(ip, a.2), false⟩) true

/-- `Bootstrap.resolve`.  `enabled` is the module-level `Bootstrap.enabled`
flag; `lookup host` models `reactor.resolve(host)` (`none` = DNS failure,
which errbacks).  A failed gather makes the `yield` raise, so `resolve`
propagates the exception (`.error ()`) with no state mutation. -/
def resolve (enabled : Bool) (lookup : String → Option String) (st : BState) :
    Except Unit (Bool × BState) :=
  if enabled then
    if are_resolved st then Except.ok (true, st)
    else
      let addresses := unresolvedAddresses st
      match gatherResults (addresses.map (fun a => lookup a.1)) with
      | none => Except.error ()
      | some ips => Except.ok (installAll (addresses.zip ips) st false)
  else Except.ok (false, st)

/-- One externally triggered operation on a `Bootstrap` object. -/
inductive Op where
  | resolveOp (enabled : Bool) (lookup : String → Option String)
  | resetOp

/-- State reached after one operation; a `resolve` whose gather failed has
mutated nothing when the exception propagates. -/
def applyOp (st : BState) : Op → BState
  | Op.resetOp => reset st
  | Op.resolveOp e lk =>
    match resolve e lk st with
    | Except.ok r => r.2
    | Except.error _ => st

/-- State after an arbitrary sequence of `resolve`/`reset` calls. -/
def runOps (st : BState) (ops : List Op) : BState := ops.foldl applyOp st

end Bootstrap

/-! ## Seed address file parsing (Bootstrap.load_addresses_from_file) -/

/-- The whitespace class of Python `str.strip()` / `str.split()`:
space, tab, newline, carriage return, vertical tab, form feed. -/
def isSpaceChar (c : Char) : Bool :=
  c = ' ' || c = '\t' || c = '\n' || c = '\r' || c = '\x0b' || c = '\x0c'

/-- Drop leading whitespace characters. -/
def dropLeadingSpace : List Char → List Char
  | [] => []
  | c :: t => if isSpaceChar c then dropLeadingSpace t else c :: t

/-- Python `str.strip()`: remove leading and trailing whitespace. -/
def pyStrip (l : List Char) : List Char :=
  dropLeadingSpace ((dropLeadingSpace l.reverse).reverse)

/-- Worker for `pySplit`; `cur` is the reversed current token. -/
def pySplitGo : List Char → List Char → List (List Char)
  | [], cur => if cur = [] then [] else [cur.reverse]
  | c :: t, cur =>
    if isSpaceChar c then
      if cur = [] then pySplitGo t [] else cur.reverse :: pySplitGo t []
    else pySplitGo t (c :: cur)

/-- Python `str.split()` with no argument: split on whitespace runs,
producing no empty tokens. -/
def pySplit (l : List Char) : List (List Char) := pySplitGo l []

/-- Decimal digit-string value. -/
def digitsVal (t : List Char) : Option Nat :=
  if t ≠ [] ∧ t.all Char.isDigit then
    some (t.foldl (fun a c => a * 10 + (c.toNat - 48)) 0)
  else none

/-- Python `int(s)` on a whitespace-free token: optional sign followed by
one or more decimal digits; anything else raises `ValueError`. -/
def pyInt : List Char → Option Int
  | '-' :: t => (digitsVal t).map (fun n => -(Int.ofNat n))
  | '+' :: t => (digitsVal t).map Int.ofNat
  | t => (digitsVal t).map Int.ofNat

/-- Processing of one line of the seed file: `some none` when the stripped
line is a comment (skipped), `some (some (host, port))` when `host, port =
line.split()` and `int(port)` succeed, and `none` when the line raises
(wrong token count or bad integer), which aborts the whole loop. -/
def parseLine (line : String) : Option (Option (String × Int)) :=
  match pyStrip line.toList with
  | '#' :: _ => some none
  | l =>
    match pySplit l with
    | [host, port] => (pyInt port).map (fun p => some (⟨host⟩, p))
    | _ => none

namespace Bootstrap

/-- The `for line in open(filename)` loop with its surrounding bare
`except: pass`: an exception on any line returns the addresses accumulated
so far. -/
def loadGo : List String → List (String × Int) → List (String × Int)
  | [], acc => acc.reverse
  | line :: rest, acc =>
    match parseLine line with
    | none => acc.reverse
    | some none => loadGo rest acc
    | some (some p) => loadGo rest (p :: acc)

/-- `Bootstrap.load_addresses_from_file`: `none` models an unreadable file
(`open` raised), `some lines` the file's lines. -/
def load_addresses_from_file : Option (List String) → List (String × Int)
  | none => []
  | some lines => loadGo lines []

end Bootstrap

/-! ## Candidate registry behavior (spec-modelled)

`dispersy.py` and `community.py` are not under `src/` (only
`tests/test_candidates.py` is), so the deduplication pass and the
introduction-selection policy are modelled from the spec (§4.2, §4.3,
§5). -/

/-- Candidate NAT classification (§3). -/
inductive ConnType where
  | unknown
  | symNAT
deriving DecidableEq

/-- A registered candidate as needed for the deduplication pass: sock
address (registry key), self-reported WAN address, NAT classification and
the three interaction timestamps. -/
structure RCand where
  sock : String × Int
  wan : String × Int
  conn : ConnType
  lastStumble : Nat
  lastWalk : Nat
  lastWalkResponse : Nat
deriving DecidableEq

/-- Modelled from the spec (§4.2): the fold condition of
`filter_duplicate` — a scanned candidate folds into the reference when it
is a different candidate, its WAN host matches the reference's WAN host,
and at least one of the two is flagged `symmetric-NAT`. -/
def shouldFold (ref c : RCand) : Bool :=
  decide (c ≠ ref) && decide (c.wan.1 = ref.wan.1) &&
    (decide (c.conn = ConnType.symNAT) || decide (ref.conn = ConnType.symNAT))

/-- Modelled from the spec (§4.2): merged candidate keeps the reference's
identity and takes the most-recent (maximum) timestamps. -/
def mergeStamps (r c : RCand) : RCand :=
  { r with
    lastStumble := max r.lastStumble c.lastStumble,
    lastWalk := max r.lastWalk c.lastWalk,
    lastWalkResponse := max r.lastWalkResponse c.lastWalkResponse }

/-- Modelled from the spec: `filter_duplicate(reference)`
(`Dispersy._filter_duplicate_candidate`, whose source is absent from
`src/`).  Scans the registry, removes every candidate satisfying the §4.2
fold condition, and replaces the reference entry by the reference merged
with the removed candidates' timestamps. -/
def filter_duplicate (st : List RCand) (ref : RCand) : List RCand :=
  let merged := st.foldl (fun r c => if shouldFold ref c then mergeStamps r c else r) ref
  st.filterMap (fun c =>
    if shouldFold ref c then none
    else if c = ref then some merged else some c)

/-- A candidate as needed for introduction selection: its (LAN) address and
the bootstrap flag (bootstrap candidates are never offered, §4.3). -/
structure SCand where
  addr : String × Int
  is_bootstrap : Bool
deriving DecidableEq

/-- Modelled from the spec (§4.3/§5): per-community activity order, oldest
first.  A stumble makes the candidate the most recently active one;
ties in raw timestamps are broken by delivery order (§5: "timestamp updates
are applied in the order events are delivered"). -/
def stumble (st : List SCand) (c : SCand) : List SCand :=
  st.filter (fun x => x ≠ c) ++ [c]

/-- Modelled from the spec (§4.3, plain community policy,
`community.py`'s `dispersy_yield_introduce_candidates` being absent from
`src/`): the first element of the lazy sequence is the most recently active
candidate strictly before the requester's own most recent activity,
excluding the requester and all bootstrap candidates; `none` when no such
candidate exists. -/
def yield_introduce_first (st : List SCand) (r : SCand) : Option SCand :=
  ((st.takeWhile (fun x => x ≠ r)).filter (fun c => !c.is_bootstrap)).getLast?

/-- The loop of `TestCandidates.__test_introduce`: each candidate stumbles
in turn on the community, then the first introduction for it is recorded. -/
def introduce_run (cs : List SCand) : List (Option (String × Int)) :=
  (cs.foldl (fun (acc : List SCand × List (Option (String × Int))) c =>
    let st := stumble acc.1 c
    (st, acc.2 ++ [(yield_introduce_first st c).map (fun x => x.addr)]))
    ([], [])).2

/-! ## Helper lemmas -/

theorem take_len_append {α : Type} (l₁ l₂ : List α) (n : Nat) (h : l₁.length = n) :
    (l₁ ++ l₂).take n = l₁ := by
  rw [← h]; exact List.take_left _ _

theorem drop_len_append {α : Type} (l₁ l₂ : List α) (n : Nat) (h : l₁.length = n) :
    (l₁ ++ l₂).drop n = l₂ := by
  rw [← h]; exact List.drop_left _ _

theorem natBytesGo_congr (n : Nat) : ∀ f g : Nat, n ≤ f → n ≤ g →
    natBytesGo f n = natBytesGo g n := by
  induction n using Nat.strong_induction_on with
  | _ n ih =>
    intro f g hf hg
    cases n with
    | zero => cases f <;> cases g <;> rfl
    | succ m =>
      cases f with
      | zero => omega
      | succ f' =>
        cases g with
        | zero => omega
        | succ g' =>
          simp only [natBytesGo]
          rw [ih ((m + 1) / 256) (by omega) f' g' (by omega) (by omega)]

theorem natBytes_zero : natBytes 0 = [] := rfl

theorem natBytes_eq (n : Nat) (h : 0 < n) :
    natBytes n = natBytes (n / 256) ++ [n % 256] := by
  obtain ⟨m, rfl⟩ : ∃ m, n = m + 1 := ⟨n - 1, by omega⟩
  show natBytesGo (m + 1) (m + 1) = _
  simp only [natBytesGo]
  rw [natBytesGo_congr ((m + 1) / 256) m ((m + 1) / 256) (by omega) (le_refl _)]
  rfl

theorem natBytes_head (n : Nat) (h : 0 < n) :
    ∃ b t, natBytes n = b :: t ∧ 0 < b ∧ b < 256 := by
  induction n using Nat.strong_induction_on with
  | _ n ih =>
    rcases Nat.lt_or_ge n 256 with hlt | hge
    · refine ⟨n, [], ?_, h, hlt⟩
      rw [natBytes_eq n h, Nat.div_eq_of_lt hlt, natBytes_zero,
        Nat.mod_eq_of_lt hlt]
      rfl
    · obtain ⟨b, t, hbt, hb1, hb2⟩ := ih (n / 256) (by omega) (by omega)
      refine ⟨b, t ++ [n % 256], ?_, hb1, hb2⟩
      rw [natBytes_eq n h, hbt]
      rfl

theorem natBytes_len_le (n : Nat) : ∀ L : Nat, n < 256 ^ L →
    (natBytes n).length ≤ L := by
  induction n using Nat.strong_induction_on with
  | _ n ih =>
    intro L h
    cases Nat.eq_zero_or_pos n with
    | inl h0 => subst h0; simp [natBytes_zero]
    | inr hp =>
      cases L with
      | zero => simp at h; omega
      | succ K =>
        rw [natBytes_eq n hp]
        have hdiv : n / 256 < 256 ^ K := by
          rw [Nat.div_lt_iff_lt_mul (by norm_num : (0 : Nat) < 256)]
          calc n < 256 ^ (K + 1) := h
            _ = 256 ^ K * 256 := by rw [pow_succ]
        have := ih (n / 256) (by omega) K hdiv
        simp only [List.length_append, List.length_cons, List.length_nil]
        omega

theorem stripZeros_replicate (k : Nat) (l : List Nat) :
    stripZeros (List.replicate k 0 ++ l) = stripZeros l := by
  induction k with
  | zero => rfl
  | succ m ih => simpa [List.replicate_succ, stripZeros] using ih

theorem stripZeros_zero_cons (t : List Nat) : stripZeros (0 :: t) = stripZeros t := by
  simp [stripZeros]

theorem stripZeros_cons (b : Nat) (t : List Nat) (h : b ≠ 0) :
    stripZeros (b :: t) = b :: t := by
  simp [stripZeros, h]

theorem u32beDecode_u32be (n : Nat) (rest : List Nat) (h : n < 4294967296) :
    u32beDecode (u32be n ++ rest) = n := by
  simp only [u32be, List.cons_append, List.nil_append, u32beDecode]
  omega

theorem mpiPayload_cases (n : Nat) (h : 0 < n) :
    ∃ b t, natBytes n = b :: t ∧ 0 < b ∧
      ((b < 128 ∧ mpiPayload n = b :: t) ∨
       (128 ≤ b ∧ mpiPayload n = 0 :: b :: t)) := by
  obtain ⟨b, t, hbt, hb1, _⟩ := natBytes_head n h
  refine ⟨b, t, hbt, hb1, ?_⟩
  by_cases h128 : 128 ≤ b
  · right; exact ⟨h128, by simp [mpiPayload, hbt, h128]⟩
  · left; exact ⟨by omega, by simp [mpiPayload, hbt, h128]⟩

theorem componentRoundtrip (L r : Nat) (h0 : 0 < r) (hr : r < 256 ^ L)
    (hL32 : L < 4294967295) :
    ∃ rb : List Nat,
      pyTail (mpiEnc r) (min L (u32beDecode (mpiEnc r))) = rb ∧
      rb.length ≤ L ∧ stripZeros (padTo L rb) = natBytes r := by
  obtain ⟨b, t, hbt, hb, hcase⟩ := mpiPayload_cases r h0
  have hk : (natBytes r).length ≤ L := natBytes_len_le r L hr
  rw [hbt] at hk
  simp only [List.length_cons] at hk
  rcases hcase with ⟨h128, hp⟩ | ⟨h128, hp⟩
  · refine ⟨b :: t, ?_, by simpa using hk, ?_⟩
    · have hdec : u32beDecode (mpiEnc r) = t.length + 1 := by
        simp only [mpiEnc, hp, List.length_cons]
        exact u32beDecode_u32be _ _ (by omega)
      rw [hdec, Nat.min_eq_right hk]
      simp only [pyTail, if_neg (by omega : ¬ (t.length + 1 = 0))]
      simp only [mpiEnc, hp, List.length_cons, List.length_append]
      rw [show (u32be (t.length + 1)).length + (t.length + 1) - (t.length + 1)
          = 4 from by simp [u32be]]
      exact drop_len_append _ _ _ rfl
    · rw [padTo, stripZeros_replicate, stripZeros_cons b t (by omega)]
      exact hbt.symm
  · have hdec : u32beDecode (mpiEnc r) = t.length + 2 := by
      simp only [mpiEnc, hp, List.length_cons]
      exact u32beDecode_u32be _ _ (by omega)
    rcases Nat.lt_or_ge (t.length + 1) L with hlt | hge
    · refine ⟨0 :: b :: t, ?_, by simp only [List.length_cons]; omega, ?_⟩
      · rw [hdec, Nat.min_eq_right (by omega : t.length + 2 ≤ L)]
        simp only [pyTail, if_neg (by omega : ¬ (t.length + 2 = 0))]
        simp only [mpiEnc, hp, List.length_cons, List.length_append]
        rw [show (u32be (t.length + 1 + 1)).length + (t.length + 1 + 1) -
            (t.length + 2) = 4 from by simp [u32be]]
        exact drop_len_append _ _ _ rfl
      · rw [padTo, stripZeros_replicate, stripZeros_zero_cons,
          stripZeros_cons b t (by omega)]
        exact hbt.symm
    · have hkL : t.length + 1 = L := by omega
      refine ⟨b :: t, ?_, by simp only [List.length_cons]; omega, ?_⟩
      · rw [hdec, Nat.min_eq_left (by omega : L ≤ t.length + 2)]
        simp only [pyTail, if_neg (by omega : ¬ (L = 0))]
        simp only [mpiEnc, hp, List.length_cons, List.length_append]
        rw [show (u32be (t.length + 1 + 1)).length + (t.length + 1 + 1) - L
            = 5 from by simp [u32be]; omega]
        rw [show u32be (t.length + 1 + 1) ++ 0 :: b :: t
            = (u32be (t.length + 1 + 1) ++ [0]) ++ b :: t from by simp]
        exact drop_len_append _ _ _ (by simp [u32be])
      · rw [padTo, show L - (b :: t).length = 0 from by
          simp only [List.length_cons]; omega]
        rw [List.replicate_zero, List.nil_append,
          stripZeros_cons b t (by omega)]
        exact hbt.symm

theorem reconstructMpi_of_strip (x : List Nat) (r : Nat) (h0 : 0 < r)
    (hs : stripZeros x = natBytes r) :
    ECCrypto.reconstructMpi x = some (mpiEnc r) := by
  obtain ⟨b, t, hbt, hb, hcase⟩ := mpiPayload_cases r h0
  unfold ECCrypto.reconstructMpi
  rw [hs, hbt]
  rcases hcase with ⟨h128, hp⟩ | ⟨h128, hp⟩
  · simp [mpiEnc, hp, if_neg (by omega : ¬ (128 ≤ b))]
  · simp [mpiEnc, hp, if_pos h128]

/-- C3: for every key generated at a supported security level (`very-low`,
`low`, `medium`, `high`) and every message digest, the signature produced
by `ECCrypto.create_signature` has exactly `get_signature_length` bytes and
`ECCrypto.is_valid_signature` accepts it.  The backend is characterised by
its observable contract: `sign_dsa` returns the MPI encodings of two
nonzero scalars below `2 ^ len(ec)`, and `verify_dsa` accepts the exact
MPI pair it signed with. -/
theorem ec_signature_roundtrip (ec : ECKey) (level : String) (r s : Nat)
    (digest : List Nat)
    (hlevel : curveBits level = some ec.bits)
    (hsign : ec.sign digest = (mpiEnc r, mpiEnc s))
    (hr0 : 0 < r) (hr : r < 2 ^ ec.bits) (hs0 : 0 < s) (hs : s < 2 ^ ec.bits)
    (hv : ec.verify digest (mpiEnc r) (mpiEnc s) = true) :
    (ECCrypto.create_signature ec digest).length =
      ECCrypto.get_signature_length ec ∧
    ECCrypto.is_valid_signature ec digest (ECCrypto.create_signature ec digest)
      = Except.ok true := by
  have hbits : ec.bits = 163 ∨ ec.bits = 233 ∨ ec.bits = 409 ∨ ec.bits = 571 := by
    unfold curveBits at hlevel
    split_ifs at hlevel <;> simp_all
  set L := (ec.bits + 7) / 8 with hLdef
  have hL32 : L < 4294967295 := by rcases hbits with h | h | h | h <;> omega
  have hpow : 2 ^ ec.bits ≤ 256 ^ L := by
    have h8 : ec.bits ≤ 8 * L := by omega
    calc 2 ^ ec.bits ≤ 2 ^ (8 * L) := Nat.pow_le_pow_right (by norm_num) h8
      _ = 256 ^ L := by rw [pow_mul]; norm_num
  obtain ⟨rb, hrb, hrblen, hrstrip⟩ :=
    componentRoundtrip L r hr0 (lt_of_lt_of_le hr hpow) hL32
  obtain ⟨sb, hsb, hsblen, hsstrip⟩ :=
    componentRoundtrip L s hs0 (lt_of_lt_of_le hs hpow) hL32
  have hcs : ECCrypto.create_signature ec digest = padTo L rb ++ padTo L sb := by
    unfold ECCrypto.create_signature
    rw [hsign]
    simp only [← hLdef]
    rw [hrb, hsb]
  have hplen : (padTo L rb).length = L := by
    simp only [padTo, List.length_append, List.length_replicate]; omega
  have hqlen : (padTo L sb).length = L := by
    simp only [padTo, List.length_append, List.length_replicate]; omega
  have hlen' : (padTo L rb ++ padTo L sb).length =
      ECCrypto.get_signature_length ec := by
    simp only [List.length_append, hplen, hqlen, ECCrypto.get_signature_length,
      ← hLdef]
    omega
  refine ⟨by rw [hcs]; exact hlen', ?_⟩
  unfold ECCrypto.is_valid_signature
  rw [hcs, if_pos hlen']
  have h2 : (padTo L rb ++ padTo L sb).length / 2 = L := by
    simp only [List.length_append, hplen, hqlen]; omega
  simp only [h2, take_len_append _ _ _ hplen, drop_len_append _ _ _ hplen,
    reconstructMpi_of_strip _ r hr0 hrstrip,
    reconstructMpi_of_strip _ s hs0 hsstrip]
  rw [hv]

/-- Witness for C3 at the `very-low` level with scalars r = s = 1 and an
empty digest. -/
theorem ec_signature_roundtrip_witness :
    (ECCrypto.create_signature
        ⟨163, fun _ => (mpiEnc 1, mpiEnc 1),
          fun _ x y => decide (x = mpiEnc 1) && decide (y = mpiEnc 1)⟩
        []).length = 42 ∧
    ECCrypto.is_valid_signature
        ⟨163, fun _ => (mpiEnc 1, mpiEnc 1),
          fun _ x y => decide (x = mpiEnc 1) && decide (y = mpiEnc 1)⟩
        []
        (ECCrypto.create_signature
          ⟨163, fun _ => (mpiEnc 1, mpiEnc 1),
            fun _ x y => decide (x = mpiEnc 1) && decide (y = mpiEnc 1)⟩
          []) = Except.ok true :=
  ec_signature_roundtrip
    ⟨163, fun _ => (mpiEnc 1, mpiEnc 1),
      fun _ x y => decide (x = mpiEnc 1) && decide (y = mpiEnc 1)⟩
    "very-low" 1 1 [] (by decide) rfl (by decide) (by decide) (by decide)
    (by decide) (by decide)

/-- C4 counterexample: the empty byte string has the wrong length for a
`very-low` key (42 bytes expected), so `is_valid_signature` fails its
`assert` — the call raises `AssertionError` instead of returning the
boolean `false` the claim promises for arbitrary byte strings. -/
theorem is_valid_signature_raises_on_wrong_length :
    ECCrypto.is_valid_signature ⟨163, fun _ => ([], []), fun _ _ _ => false⟩
      [] [] = Except.error "AssertionError" := rfl

/-- C4 amended: for every signature argument whose length equals
`get_signature_length(key)` — including unparsable or all-zero scalar
components — `is_valid_signature` returns a boolean (never an exception);
a signature of any other length fails the function's `assert` instead. -/
theorem is_valid_signature_total_on_correct_length (ec : ECKey)
    (digest signature : List Nat)
    (h : signature.length = ECCrypto.get_signature_length ec) :
    ∃ b : Bool, ECCrypto.is_valid_signature ec digest signature =
      Except.ok b := by
  unfold ECCrypto.is_valid_signature
  rw [if_pos h]
  show ∃ b : Bool,
    (match ECCrypto.reconstructMpi (signature.take (signature.length / 2)),
           ECCrypto.reconstructMpi (signature.drop (signature.length / 2)) with
     | some mpi_r, some mpi_s => Except.ok (ec.verify digest mpi_r mpi_s)
     | _, _ => Except.ok false) = Except.ok b
  cases ECCrypto.reconstructMpi (signature.take (signature.length / 2)) with
  | none =>
    cases ECCrypto.reconstructMpi (signature.drop (signature.length / 2)) with
    | none => exact ⟨false, rfl⟩
    | some ms => exact ⟨false, rfl⟩
  | some mr =>
    cases ECCrypto.reconstructMpi (signature.drop (signature.length / 2)) with
    | none => exact ⟨false, rfl⟩
    | some ms => exact ⟨ec.verify digest mr ms, rfl⟩

/-- Witness for the amended C4: an all-zero 42-byte signature under a
`very-low` key yields a boolean result. -/
theorem is_valid_signature_total_witness :
    ∃ b : Bool,
      ECCrypto.is_valid_signature ⟨163, fun _ => ([], []), fun _ _ _ => false⟩
        [] (List.replicate 42 0) = Except.ok b :=
  is_valid_signature_total_on_correct_length
    ⟨163, fun _ => ([], []), fun _ _ _ => false⟩ [] (List.replicate 42 0) rfl

/-- C9: `NoCrypto.create_signature` always returns exactly
`get_signature_length(key)` bytes and `NoCrypto.is_valid_signature`
returns true for every key, digest and signature argument. -/
theorem nocrypto_signature_spec (ec : ECKey) (digest : List Nat) :
    (NoCrypto.create_signature ec digest).length =
      ECCrypto.get_signature_length ec ∧
    ∀ signature : List Nat,
      NoCrypto.is_valid_signature ec digest signature = true :=
  ⟨List.length_replicate _ _, fun _ => rfl⟩

/-! ## Bootstrap resolver lemmas -/

theorem candidates_ne_of_mem (st : BState) (p : Addr × Option BootstrapCandidate)
    (hp : p ∈ st) (hs : p.2.isSome = true) : Bootstrap.candidates st ≠ [] := by
  simp only [Bootstrap.candidates, ne_eq, List.filterMap_eq_nil_iff]
  intro hall
  have := hall p hp
  rw [this] at hs
  exact Bool.noConfusion hs

theorem updateAt_keys (st : BState) (a : Addr) (c : BootstrapCandidate) :
    Bootstrap.keys (Bootstrap.updateAt st a c) = Bootstrap.keys st := by
  induction st with
  | nil => rfl
  | cons p rest ih =>
    simp only [Bootstrap.updateAt, Bootstrap.keys, List.map_cons] at *
    rw [ih]
    by_cases hpa : p.1 = a
    · rw [if_pos hpa]
    · rw [if_neg hpa]

theorem updateAt_candidates_ne (st : BState) (a : Addr) (c : BootstrapCandidate)
    (ha : a ∈ Bootstrap.keys st) :
    Bootstrap.candidates (Bootstrap.updateAt st a c) ≠ [] := by
  simp only [Bootstrap.keys, List.mem_map] at ha
  obtain ⟨p, hp, hpa⟩ := ha
  refine candidates_ne_of_mem _ (p.1, some c) ?_ rfl
  simp only [Bootstrap.updateAt, List.mem_map]
  exact ⟨p, hp, by rw [if_pos hpa]⟩

theorem candidates_ne_updateAt (st : BState) (a : Addr) (c : BootstrapCandidate)
    (h : Bootstrap.candidates st ≠ []) :
    Bootstrap.candidates (Bootstrap.updateAt st a c) ≠ [] := by
  simp only [Bootstrap.candidates, ne_eq, List.filterMap_eq_nil_iff] at h ⊢
  intro hall
  apply h
  intro p hp
  by_cases hpa : p.1 = a
  · have := hall (p.1, some c) (by
      simp only [Bootstrap.updateAt, List.mem_map]
      exact ⟨p, hp, by rw [if_pos hpa]⟩)
    exact Option.noConfusion this
  · exact hall p (by
      simp only [Bootstrap.updateAt, List.mem_map]
      exact ⟨p, hp, by rw [if_neg hpa]⟩)

theorem installAll_fst_true (l : List (Addr × String)) (st : BState) :
    (Bootstrap.installAll l st true).1 = true := by
  induction l generalizing st with
  | nil => rfl
  | cons q rest ih =>
    obtain ⟨a, ip⟩ := q
    simp only [Bootstrap.installAll]
    split
    · exact ih st
    · exact ih _

theorem installAll_keys (l : List (Addr × String)) (st : BState) (b : Bool) :
    Bootstrap.keys (Bootstrap.installAll l st b).2 = Bootstrap.keys st := by
  induction l generalizing st b with
  | nil => rfl
  | cons q rest ih =>
    obtain ⟨a, ip⟩ := q
    simp only [Bootstrap.installAll]
    split
    · exact ih st b
    · rw [ih _ true, updateAt_keys]

theorem installAll_candidates_ne (l : List (Addr × String)) (st : BState)
    (b : Bool) (h : Bootstrap.candidates st ≠ []) :
    Bootstrap.candidates (Bootstrap.installAll l st b).2 ≠ [] := by
  induction l generalizing st b with
  | nil => exact h
  | cons q rest ih =>
    obtain ⟨a, ip⟩ := q
    simp only [Bootstrap.installAll]
    split
    · exact ih st b h
    · exact ih _ true (candidates_ne_updateAt st a _ h)

theorem are_resolved_candidates_ne (st : BState)
    (h : Bootstrap.are_resolved st = true) (hne : st ≠ []) :
    Bootstrap.candidates st ≠ [] := by
  obtain ⟨p, rest, rfl⟩ := List.exists_cons_of_ne_nil hne
  simp only [Bootstrap.are_resolved, List.all_cons, Bool.and_eq_true] at h
  exact candidates_ne_of_mem _ p (List.mem_cons_self p rest) h.1

theorem unresolved_ne_nil (st : BState)
    (h : Bootstrap.are_resolved st = false) :
    Bootstrap.unresolvedAddresses st ≠ [] := by
  simp only [Bootstrap.are_resolved, List.all_eq_false] at h
  obtain ⟨p, hp, hps⟩ := h
  simp only [Bootstrap.unresolvedAddresses, ne_eq, List.map_eq_nil_iff,
    List.filter_eq_nil_iff]
  intro hall
  exact hall p hp (by cases hv : p.2 <;> simp_all)

theorem mem_unresolved_keys (st : BState) (a : Addr)
    (h : a ∈ Bootstrap.unresolvedAddresses st) : a ∈ Bootstrap.keys st := by
  simp only [Bootstrap.unresolvedAddresses, List.mem_map, List.mem_filter] at h
  obtain ⟨p, ⟨hp, _⟩, rfl⟩ := h
  exact List.mem_map_of_mem _ hp

theorem gatherResults_length (l : List (Option String)) (xs : List String)
    (h : Bootstrap.gatherResults l = some xs) : xs.length = l.length := by
  induction l generalizing xs with
  | nil =>
    simp only [Bootstrap.gatherResults, Option.some.injEq] at h
    subst h; rfl
  | cons o rest ih =>
    cases o with
    | none => exact Option.noConfusion h
    | some x =>
      simp only [Bootstrap.gatherResults, Option.map_eq_some'] at h
      obtain ⟨ys, hys, rfl⟩ := h
      simp [ih ys hys]

theorem gatherResults_mem (l : List (Option String)) (xs : List String)
    (h : Bootstrap.gatherResults l = some xs) : ∀ x ∈ xs, some x ∈ l := by
  induction l generalizing xs with
  | nil =>
    simp only [Bootstrap.gatherResults, Option.some.injEq] at h
    subst h
    intro x hx
    exact absurd hx (List.not_mem_nil x)
  | cons o rest ih =>
    cases o with
    | none => exact Option.noConfusion h
    | some y =>
      simp only [Bootstrap.gatherResults, Option.map_eq_some'] at h
      obtain ⟨ys, hys, rfl⟩ := h
      intro x hx
      rcases List.mem_cons.mp hx with rfl | hx'
      · exact List.mem_cons_self _ _
      · exact List.mem_cons_of_mem _ (ih ys hys x hx')

/-- C1 counterexample: for a `Bootstrap` constructed from the empty address
list (accepted by `__init__`), `resolve()` with the enabled flag true and
no lookups succeeding returns `True` while zero configured addresses are
resolved after the call — refuting "returns true iff at least one
configured address is resolved after the call". -/
theorem resolve_true_with_zero_resolved :
    Bootstrap.resolve true (fun _ => none) ([] : BState) =
      Except.ok (true, ([] : BState)) ∧
    (Bootstrap.progress ([] : BState)).1 = 0 :=
  ⟨rfl, rfl⟩

/-- C1 amended: whenever `resolve()` completes without raising (DNS
lookups, when they succeed, return a nonempty IP string), its boolean
result equals the enabled flag — so false is returned exactly when
resolution is globally disabled — and a true result with a nonempty
configured address list guarantees at least one resolved address after the
call.  (For the empty list it returns true with zero resolved addresses,
and a failed lookup makes the call raise rather than return false.) -/
theorem resolve_ok_spec (enabled : Bool) (lookup : String → Option String)
    (st : BState) (res : Bool × BState)
    (hip : ∀ h ip, lookup h = some ip → ip ≠ "")
    (hok : Bootstrap.resolve enabled lookup st = Except.ok res) :
    res.1 = enabled ∧
    (enabled = true → st ≠ [] → Bootstrap.candidates res.2 ≠ []) := by
  cases enabled with
  | false =>
    simp only [Bootstrap.resolve, Bool.false_eq_true, if_false,
      Except.ok.injEq] at hok
    subst hok
    exact ⟨rfl, by intro h; exact Bool.noConfusion h⟩
  | true =>
    cases hres : Bootstrap.are_resolved st with
    | true =>
      simp only [Bootstrap.resolve, hres, if_true, Except.ok.injEq] at hok
      subst hok
      exact ⟨rfl, fun _ hne => are_resolved_candidates_ne st hres hne⟩
    | false =>
      simp only [Bootstrap.resolve, hres, if_true, Bool.false_eq_true,
        if_false] at hok
      cases hg : Bootstrap.gatherResults
          ((Bootstrap.unresolvedAddresses st).map (fun a => lookup a.1)) with
      | none => rw [hg] at hok; exact Except.noConfusion hok
      | some ips =>
        rw [hg] at hok
        simp only [Except.ok.injEq] at hok
        subst hok
        have hane : Bootstrap.unresolvedAddresses st ≠ [] :=
          unresolved_ne_nil st hres
        obtain ⟨a0, atl, ha⟩ := List.exists_cons_of_ne_nil hane
        have hlen : ips.length =
            (Bootstrap.unresolvedAddresses st).length := by
          have := gatherResults_length _ _ hg
          simpa using this
        have hine : ips ≠ [] := by
          intro hnil
          rw [hnil, ha] at hlen
          simp at hlen
        obtain ⟨ip0, iptl, hi⟩ := List.exists_cons_of_ne_nil hine
        have hip0 : ip0 ≠ "" := by
          have hm : some ip0 ∈
              (Bootstrap.unresolvedAddresses st).map (fun a => lookup a.1) :=
            gatherResults_mem _ _ hg ip0 (by rw [hi]; exact List.mem_cons_self _ _)
          simp only [List.mem_map] at hm
          obtain ⟨a, _, hla⟩ := hm
          exact hip a.1 ip0 hla
        have ha0 : a0 ∈ Bootstrap.keys st :=
          mem_unresolved_keys st a0 (by rw [ha]; exact List.mem_cons_self _ _)
        rw [ha, hi, List.zip_cons_cons]
        simp only [Bootstrap.installAll, if_neg hip0]
        refine ⟨installAll_fst_true _ _, fun _ _ => ?_⟩
        exact installAll_candidates_ne _ _ true
          (updateAt_candidates_ne st a0 _ ha0)

/-- Witness for the amended C1: one unresolved address, a successful
lookup; `resolve` returns true and the address is resolved afterwards. -/
theorem resolve_ok_spec_witness :
    (Bootstrap.resolve true (fun _ => some "1.2.3.4")
        [(("dispersy1.tribler.org", 6421), none)] =
      Except.ok (true, [(("dispersy1.tribler.org", 6421),
        some ⟨("1.2.3.4", 6421), false⟩)])) ∧
    (((true, [(("dispersy1.tribler.org", 6421),
        some ⟨("1.2.3.4", 6421), false⟩)]) : Bool × BState).1 = true ∧
      (true = true → ([(("dispersy1.tribler.org", 6421), none)] : BState) ≠ [] →
        Bootstrap.candidates ((true, [(("dispersy1.tribler.org", 6421),
          some ⟨("1.2.3.4", 6421), false⟩)]) : Bool × BState).2 ≠ [])) :=
  ⟨rfl,
    resolve_ok_spec true (fun _ => some "1.2.3.4")
      ([(("dispersy1.tribler.org", 6421), none)] : BState)
      (true, [(("dispersy1.tribler.org", 6421),
        some ⟨("1.2.3.4", 6421), false⟩)])
      (fun _ ip hsome => by
        simp only [Option.some.injEq] at hsome
        rw [← hsome]
        intro habs
        exact absurd habs (by decide))
      rfl⟩

/-- C2 (evidence of the code slip): with two configured addresses where the
first DNS lookup fails and the second succeeds, `resolve()` raises
(`gatherResults` without `consumeErrors` propagates the first failure
through the `yield`) and even the successful second lookup is discarded —
the per-address failure handling the claim describes (and the function's
own unreachable "Could not resolve" branch intends) never runs. -/
theorem resolve_propagates_lookup_failure :
    Bootstrap.resolve true
      (fun h => if h = "dispersy1.tribler.org" then none
                else some "130.161.211.245")
      [(("dispersy1.tribler.org", 6421), none),
       (("dispersy2.tribler.org", 6422), none)] = Except.error () := rfl

/-- C8: when every configured address is already resolved, `resolve()`
returns true and leaves the state unchanged, for every lookup oracle —
i.e. without performing any DNS lookup. -/
theorem resolve_idempotent (lookup : String → Option String) (st : BState)
    (h : Bootstrap.are_resolved st = true) :
    Bootstrap.resolve true lookup st = Except.ok (true, st) := by
  simp [Bootstrap.resolve, h]

/-- Witness for C8: a fully resolved single-address state with a lookup
oracle that would fail every query. -/
theorem resolve_idempotent_witness :
    Bootstrap.are_resolved
      [(("dispersy1.tribler.org", 6421), some ⟨("1.2.3.4", 6421), false⟩)]
      = true ∧
    Bootstrap.resolve true (fun _ => none)
      [(("dispersy1.tribler.org", 6421), some ⟨("1.2.3.4", 6421), false⟩)] =
      Except.ok (true,
        [(("dispersy1.tribler.org", 6421), some ⟨("1.2.3.4", 6421), false⟩)]) :=
  ⟨rfl, resolve_idempotent (fun _ => none) _ rfl⟩

theorem resolve_ok_keys (e : Bool) (lk : String → Option String) (st : BState)
    (r : Bool × BState) (h : Bootstrap.resolve e lk st = Except.ok r) :
    Bootstrap.keys r.2 = Bootstrap.keys st := by
  cases e with
  | false =>
    simp only [Bootstrap.resolve, Bool.false_eq_true, if_false,
      Except.ok.injEq] at h
    subst h; rfl
  | true =>
    cases hres : Bootstrap.are_resolved st with
    | true =>
      simp only [Bootstrap.resolve, hres, if_true, Except.ok.injEq] at h
      subst h; rfl
    | false =>
      simp only [Bootstrap.resolve, hres, if_true, Bool.false_eq_true,
        if_false] at h
      cases hg : Bootstrap.gatherResults
          ((Bootstrap.unresolvedAddresses st).map (fun a => lk a.1)) with
      | none => rw [hg] at h; exact Except.noConfusion h
      | some ips =>
        rw [hg] at h
        simp only [Except.ok.injEq] at h
        subst h
        exact installAll_keys _ st false

theorem applyOp_keys (st : BState) (op : Bootstrap.Op) :
    Bootstrap.keys (Bootstrap.applyOp st op) = Bootstrap.keys st := by
  cases op with
  | resetOp =>
    simp only [Bootstrap.applyOp, Bootstrap.reset, Bootstrap.keys,
      List.map_map]
    rfl
  | resolveOp e lk =>
    simp only [Bootstrap.applyOp]
    cases hr : Bootstrap.resolve e lk st with
    | error u => rfl
    | ok r => exact resolve_ok_keys e lk st r hr

theorem runOps_keys (st : BState) (ops : List Bootstrap.Op) :
    Bootstrap.keys (Bootstrap.runOps st ops) = Bootstrap.keys st := by
  induction ops generalizing st with
  | nil => rfl
  | cons op rest ih =>
    show Bootstrap.keys (Bootstrap.runOps (Bootstrap.applyOp st op) rest) = _
    rw [ih (Bootstrap.applyOp st op), applyOp_keys]

/-- C10: over any sequence of `resolve()` and `reset()` calls, the
configured key set of the candidate mapping stays exactly the constructor's
address list (`resolve` only assigns under existing keys, `reset` only
replaces values), so the `total_count` component of `progress()` is
constant over the resolver's lifetime. -/
theorem bootstrap_keys_invariant (addrs : List Addr)
    (ops : List Bootstrap.Op) :
    Bootstrap.keys (Bootstrap.runOps (Bootstrap.init addrs) ops) = addrs ∧
    (Bootstrap.progress (Bootstrap.runOps (Bootstrap.init addrs) ops)).2 =
      addrs.length := by
  have hinit : Bootstrap.keys (Bootstrap.init addrs) = addrs := by
    simp [Bootstrap.keys, Bootstrap.init, List.map_map, Function.comp_def]
  have h1 : Bootstrap.keys (Bootstrap.runOps (Bootstrap.init addrs) ops)
      = addrs := by rw [runOps_keys, hinit]
  refine ⟨h1, ?_⟩
  have h2 : ∀ st : BState, (Bootstrap.progress st).2 =
      (Bootstrap.keys st).length := by
    intro st; simp [Bootstrap.progress, Bootstrap.keys]
  rw [h2, h1]

/-! ## Candidate deduplication and introduction selection -/

/-- C5 counterexample: four registered candidates share WAN IP `1.1.1.1`
and one of them (the second) is `symmetric-NAT`, yet under the spec's §4.2
fold rule `filter_duplicate(reference)` with the first (NAT-type `unknown`)
as reference folds only the symmetric-NAT entry: three candidates with
that WAN IP remain, not exactly one. -/
theorem filter_duplicate_not_single :
    ((filter_duplicate
        [⟨("1.1.1.1", 1), ("1.1.1.1", 1), ConnType.unknown, 0, 0, 0⟩,
         ⟨("1.1.1.1", 2), ("1.1.1.1", 2), ConnType.symNAT, 0, 0, 0⟩,
         ⟨("1.1.1.1", 3), ("1.1.1.1", 3), ConnType.unknown, 0, 0, 0⟩,
         ⟨("1.1.1.1", 4), ("1.1.1.1", 4), ConnType.unknown, 0, 0, 0⟩]
        ⟨("1.1.1.1", 1), ("1.1.1.1", 1), ConnType.unknown, 0, 0, 0⟩).filter
      (fun c => c.wan.1 = "1.1.1.1")).length = 3 ∧
    ((filter_duplicate
        [⟨("1.1.1.1", 1), ("1.1.1.1", 1), ConnType.unknown, 0, 0, 0⟩,
         ⟨("1.1.1.1", 2), ("1.1.1.1", 2), ConnType.symNAT, 0, 0, 0⟩,
         ⟨("1.1.1.1", 3), ("1.1.1.1", 3), ConnType.unknown, 0, 0, 0⟩,
         ⟨("1.1.1.1", 4), ("1.1.1.1", 4), ConnType.unknown, 0, 0, 0⟩]
        ⟨("1.1.1.1", 1), ("1.1.1.1", 1), ConnType.unknown, 0, 0, 0⟩).filter
      (fun c => c.wan.1 = "1.1.1.1")).length ≠ 1 := by
  exact ⟨by decide, by decide⟩

/-- C5 amended: for a registry of four candidates sharing the reference's
WAN IP, when every non-reference candidate satisfies the §4.2 fold
condition (it or the reference is `symmetric-NAT`), `filter_duplicate`
leaves exactly one candidate, namely the reference with its identity
fields intact and the most-recent timestamps merged in. -/
theorem filter_duplicate_folds_to_reference (r c2 c3 c4 : RCand)
    (h2 : c2 ≠ r) (h3 : c3 ≠ r) (h4 : c4 ≠ r)
    (hw2 : c2.wan.1 = r.wan.1) (hw3 : c3.wan.1 = r.wan.1)
    (hw4 : c4.wan.1 = r.wan.1)
    (hc2 : c2.conn = ConnType.symNAT ∨ r.conn = ConnType.symNAT)
    (hc3 : c3.conn = ConnType.symNAT ∨ r.conn = ConnType.symNAT)
    (hc4 : c4.conn = ConnType.symNAT ∨ r.conn = ConnType.symNAT) :
    filter_duplicate [r, c2, c3, c4] r =
      [mergeStamps (mergeStamps (mergeStamps r c2) c3) c4] ∧
    (mergeStamps (mergeStamps (mergeStamps r c2) c3) c4).sock = r.sock ∧
    (mergeStamps (mergeStamps (mergeStamps r c2) c3) c4).wan = r.wan ∧
    (mergeStamps (mergeStamps (mergeStamps r c2) c3) c4).conn = r.conn := by
  have hfr : shouldFold r r = false := by simp [shouldFold]
  have hf2 : shouldFold r c2 = true := by
    rcases hc2 with h | h <;> simp [shouldFold, h2, hw2, h]
  have hf3 : shouldFold r c3 = true := by
    rcases hc3 with h | h <;> simp [shouldFold, h3, hw3, h]
  have hf4 : shouldFold r c4 = true := by
    rcases hc4 with h | h <;> simp [shouldFold, h4, hw4, h]
  refine ⟨?_, rfl, rfl, rfl⟩
  simp [filter_duplicate, hfr, hf2, hf3, hf4]

/-- Witness for the amended C5: a symmetric-NAT reference and three
`unknown` candidates sharing its WAN IP fold into the single reference. -/
theorem filter_duplicate_folds_witness :
    filter_duplicate
      [⟨("1.1.1.1", 1), ("1.1.1.1", 1), ConnType.symNAT, 5, 0, 0⟩,
       ⟨("1.1.1.1", 2), ("1.1.1.1", 2), ConnType.unknown, 7, 1, 0⟩,
       ⟨("1.1.1.1", 3), ("1.1.1.1", 3), ConnType.unknown, 2, 0, 9⟩,
       ⟨("1.1.1.1", 4), ("1.1.1.1", 4), ConnType.unknown, 0, 3, 0⟩]
      ⟨("1.1.1.1", 1), ("1.1.1.1", 1), ConnType.symNAT, 5, 0, 0⟩ =
      [mergeStamps (mergeStamps (mergeStamps
        ⟨("1.1.1.1", 1), ("1.1.1.1", 1), ConnType.symNAT, 5, 0, 0⟩
        ⟨("1.1.1.1", 2), ("1.1.1.1", 2), ConnType.unknown, 7, 1, 0⟩)
        ⟨("1.1.1.1", 3), ("1.1.1.1", 3), ConnType.unknown, 2, 0, 9⟩)
        ⟨("1.1.1.1", 4), ("1.1.1.1", 4), ConnType.unknown, 0, 3, 0⟩] :=
  (filter_duplicate_folds_to_reference
    ⟨("1.1.1.1", 1), ("1.1.1.1", 1), ConnType.symNAT, 5, 0, 0⟩
    ⟨("1.1.1.1", 2), ("1.1.1.1", 2), ConnType.unknown, 7, 1, 0⟩
    ⟨("1.1.1.1", 3), ("1.1.1.1", 3), ConnType.unknown, 2, 0, 9⟩
    ⟨("1.1.1.1", 4), ("1.1.1.1", 4), ConnType.unknown, 0, 3, 0⟩
    (by decide) (by decide) (by decide) (by decide) (by decide) (by decide)
    (by decide) (by decide) (by decide)).1

/-- C6: five non-bootstrap candidates with addresses `("127.0.0.1", 1)` …
`("127.0.0.1", 5)` stumbling in order 1,2,3,4,5 on a fresh community yield
first introductions `[None, 1, 2, 3, 4]`; the same five stumbling in
reverse order on an independent second community (a separate fresh state,
so neither ordering can perturb the other) yield `[None, 5, 4, 3, 2]`. -/
theorem introduce_order_spec :
    introduce_run
      [⟨("127.0.0.1", 1), false⟩, ⟨("127.0.0.1", 2), false⟩,
       ⟨("127.0.0.1", 3), false⟩, ⟨("127.0.0.1", 4), false⟩,
       ⟨("127.0.0.1", 5), false⟩] =
      [none, some ("127.0.0.1", 1), some ("127.0.0.1", 2),
       some ("127.0.0.1", 3), some ("127.0.0.1", 4)] ∧
    introduce_run
      [⟨("127.0.0.1", 5), false⟩, ⟨("127.0.0.1", 4), false⟩,
       ⟨("127.0.0.1", 3), false⟩, ⟨("127.0.0.1", 2), false⟩,
       ⟨("127.0.0.1", 1), false⟩] =
      [none, some ("127.0.0.1", 5), some ("127.0.0.1", 4),
       some ("127.0.0.1", 3), some ("127.0.0.1", 2)] := by
  exact ⟨by decide, by decide⟩

/-! ## Seed file parsing lemmas -/

theorem loadGo_all_ok (lines : List String) :
    ∀ acc : List (String × Int),
    (∀ l ∈ lines, parseLine l ≠ none) →
    Bootstrap.loadGo lines acc =
      acc.reverse ++ lines.filterMap (fun l => Option.join (parseLine l)) := by
  induction lines with
  | nil => intro acc _; simp [Bootstrap.loadGo]
  | cons line rest ih =>
    intro acc h
    have hrest : ∀ l ∈ rest, parseLine l ≠ none :=
      fun l hl => h l (List.mem_cons_of_mem _ hl)
    cases hp : parseLine line with
    | none => exact absurd hp (h line (List.mem_cons_self _ _))
    | some o =>
      cases o with
      | none =>
        simp only [Bootstrap.loadGo, hp, List.filterMap_cons, Option.join]
        exact ih acc hrest
      | some p =>
        simp only [Bootstrap.loadGo, hp, List.filterMap_cons, Option.join]
        rw [ih (p :: acc) hrest]
        simp

theorem loadGo_abort (good : List String) (bad : String) (rest : List String) :
    ∀ acc : List (String × Int),
    (∀ l ∈ good, parseLine l ≠ none) → parseLine bad = none →
    Bootstrap.loadGo (good ++ bad :: rest) acc =
      acc.reverse ++ good.filterMap (fun l => Option.join (parseLine l)) := by
  induction good with
  | nil =>
    intro acc _ hb
    simp [Bootstrap.loadGo, hb]
  | cons line g ih =>
    intro acc h hb
    have hg : ∀ l ∈ g, parseLine l ≠ none :=
      fun l hl => h l (List.mem_cons_of_mem _ hl)
    cases hp : parseLine line with
    | none => exact absurd hp (h line (List.mem_cons_self _ _))
    | some o =>
      cases o with
      | none =>
        simp only [List.cons_append, Bootstrap.loadGo, hp]
        exact (ih acc hg hb).trans
          (by simp [List.filterMap_cons, hp, Option.join])
      | some p =>
        simp only [List.cons_append, Bootstrap.loadGo, hp]
        exact (ih (p :: acc) hg hb).trans
          (by simp [List.filterMap_cons, hp, Option.join])

/-- C7 counterexample: a readable file whose first line is well formed and
whose second line is malformed returns the one pair parsed before the bad
line — a nonempty list — refuting "a malformed line yields an empty
list". -/
theorem load_addresses_partial_on_malformed :
    Bootstrap.load_addresses_from_file (some ["a 1", "bad"]) = [("a", 1)] ∧
    Bootstrap.load_addresses_from_file (some ["a 1", "bad"]) ≠ [] := by
  exact ⟨by decide, by decide⟩

/-- C7 amended: `load_addresses_from_file` returns one `(host, port)` pair
per non-comment line (lines whose stripped form starts with `#` are
skipped) as long as every line is well formed; an unreadable file yields
the empty list; a malformed line raises inside the loop, which the bare
`except` turns into returning exactly the pairs parsed from the lines
before it (an empty list only when no well-formed line precedes it). -/
theorem load_addresses_spec :
    Bootstrap.load_addresses_from_file none = [] ∧
    (∀ lines : List String, (∀ l ∈ lines, parseLine l ≠ none) →
      Bootstrap.load_addresses_from_file (some lines) =
        lines.filterMap (fun l => Option.join (parseLine l))) ∧
    (∀ (good : List String) (bad : String) (rest : List String),
      (∀ l ∈ good, parseLine l ≠ none) → parseLine bad = none →
      Bootstrap.load_addresses_from_file (some (good ++ bad :: rest)) =
        good.filterMap (fun l => Option.join (parseLine l))) := by
  refine ⟨rfl, ?_, ?_⟩
  · intro lines h
    show Bootstrap.loadGo lines [] = _
    rw [loadGo_all_ok lines [] h]
    rfl
  · intro good bad rest h hb
    show Bootstrap.loadGo (good ++ bad :: rest) [] = _
    rw [loadGo_abort good bad rest [] h hb]
    rfl

/-- Witness for the amended C7: a comment line and a well-formed line
followed by a malformed line and a further (ignored) line yield exactly
the pair parsed before the malformed line. -/
theorem load_addresses_spec_witness :
    Bootstrap.load_addresses_from_file
      (some (["# seed list", "dispersy1.tribler.org 6421"] ++
        "malformed" :: ["dispersy2.tribler.org 6422"])) =
      [("dispersy1.tribler.org", 6421)] := by
  have h := load_addresses_spec.2.2 ["# seed list", "dispersy1.tribler.org 6421"]
    "malformed" ["dispersy2.tribler.org 6422"] (by decide) (by decide)
  rw [h]
  decide
